import Mathlib

/-!
Shallow embedding of the runtime coordination layer of the L5P keyboard RGB
application (`src/app/src/gui/mod.rs`): the GUI message channel drain, the
profile-cycling algorithm, the custom-effect state machine, the per-tick
commit step towards the effect manager, the hotkey listener loop, and the
settings persistence performed at orderly shutdown.

Machine integers of the source (u8 color components) are modelled as `Nat`;
no arithmetic in the modelled code can overflow or depends on wrapping.
Rust `Option<EffectManager>` is modelled as a `Bool` presence flag since the
manager itself is an external facade with no modelled state.
-/

set_option maxHeartbeats 1000000

/-- Color triple, modelling the `[u8; 3]` rgb value of a zone. -/
abbrev RGB := Nat × Nat × Nat

/-- Modelled from the spec: the `Effects` enum (`enums::Effects`) is not under
`src/`; per the spec a Profile carries "a selected effect identifier", and
some effects accept per-zone color arrays (`takes_color_array`). -/
structure Effects where
  id : Nat
  takes_color_array : Bool
deriving DecidableEq, Inhabited

/-- Modelled from the spec: the `Profile` struct (`profile::Profile`) is not
under `src/`; per the spec it is "a named collection of per-zone color values
plus a selected effect identifier", with four rgb zones (`rgb_zones`). -/
structure Profile where
  name : String
  effect : Effects
  rgb_zones : List RGB
deriving DecidableEq, Inhabited

/-- Modelled from the spec: the `CustomEffect` payload
(`effects::custom_effect::CustomEffect`) is not under `src/`; it is an opaque
user-supplied effect definition, modelled as its serialized data. -/
structure CustomEffect where
  data : List Nat
deriving DecidableEq, Inhabited

/-- The `CustomEffectState` sum type from `gui/mod.rs`. -/
inductive CustomEffectState where
  | none
  | queued (effect : CustomEffect)
  | playing
deriving DecidableEq, Inhabited

namespace CustomEffectState

/-- Translation of `CustomEffectState::is_none`. -/
def is_none : CustomEffectState → Bool
  | .none => true
  | .queued _ => false
  | .playing => false

/-- Translation of `CustomEffectState::is_queued`. -/
def is_queued : CustomEffectState → Bool
  | .none => false
  | .queued _ => true
  | .playing => false

/-- Translation of `CustomEffectState::is_playing`. -/
def is_playing : CustomEffectState → Bool
  | .none => false
  | .queued _ => false
  | .playing => true

end CustomEffectState

/-- The `GuiMessage` control-message sum type from `gui/mod.rs`. -/
inductive GuiMessage where
  | showWindow
  | cycleProfiles
  | quit
deriving DecidableEq, Inhabited

/-- Modelled from the spec: the `Updates` struct (`persist::Updates`) is not
under `src/`; per the spec it "tracks whether a pending software update exists
and whether the user opted to skip notification for that version"; `gui/mod.rs`
reads its `skip_version` and `version_name` fields. -/
structure Updates where
  version_name : Option String
  skip_version : Bool
deriving DecidableEq, Inhabited

/-- Modelled from the spec: the `Settings` aggregate (`persist::Settings`) is
not under `src/`; per the spec it is the "aggregate of ProfileList, last-active
Profile (ui_state), and Updates metadata". -/
structure Settings where
  profiles : List Profile
  ui_state : Profile
  updates : Updates
deriving DecidableEq, Inhabited

/-- The mutable application state of `App` in `gui/mod.rs`, restricted to the
fields the coordination logic reads or writes. `window_open_rx` records
whether the receiver was retained (`tray_active`), `manager` whether
`EffectManager::new` succeeded, and `profile_list` is the
`profile_list.profiles` vector. -/
structure AppState where
  unique_instance : Bool
  show_window : Bool
  window_open_rx : Bool
  update_data : Updates
  show_update_modal : Bool
  manager : Bool
  profile : Profile
  profile_changed : Bool
  custom_effect : CustomEffectState
  profile_list : List Profile
  global_rgb : RGB
deriving DecidableEq, Inhabited

/-- Calls made to the external Effect Manager Facade
(`manager.set_profile(..)` and `manager.custom_effect(..)`). -/
inductive ForwardCall where
  | setProfile (p : Profile)
  | customEffect (e : CustomEffect)
deriving DecidableEq

/-- Translation of `self.profile_list.profiles.iter().enumerate().find(|(_, profile)| &profile.name == current_profile_name)`
in `App::cycle_profiles`: the first index whose profile name equals `name`. -/
def find_profile_index (name : String) : List Profile → Option Nat
  | [] => Option.none
  | p :: ps => if p.name == name then some 0 else (find_profile_index name ps).map (· + 1)

/-- Translation of `App::cycle_profiles` (`gui/mod.rs` lines 346-360). -/
def cycle_profiles (s : AppState) : AppState :=
  let len := s.profile_list.length
  match find_profile_index s.profile.name s.profile_list with
  | some i =>
    if i = len - 1 then
      { s with profile := s.profile_list.getD 0 default, profile_changed := true }
    else
      { s with profile := s.profile_list.getD (i + 1) default, profile_changed := true }
  | Option.none => s

/-- Translation of the commit step at the end of `App::update`
(`gui/mod.rs` lines 278-291): when the profile-changed flag is set, a present
manager receives the current profile (state `None`) or the queued custom
effect moved out by `mem::replace` (state `Queued`); the flag is cleared
afterwards.  Returns the new state together with the forward calls made. -/
def commitStep (s : AppState) : AppState × List ForwardCall :=
  if s.profile_changed then
    let sc :=
      if s.manager then
        if s.custom_effect.is_none then
          (s, [ForwardCall.setProfile s.profile])
        else if s.custom_effect.is_queued then
          match s.custom_effect with
          | CustomEffectState.queued e =>
            ({ s with custom_effect := CustomEffectState.playing }, [ForwardCall.customEffect e])
          | _ =>
            ({ s with custom_effect := CustomEffectState.playing }, [])
        else (s, [])
      else (s, [])
    ({ sc.1 with profile_changed := false }, sc.2)
  else (s, [])

/-- The UI interactions of one tick that touch the coordination state: the
zone/global color editors, the effect-options panel, the effect selector and
the stop button are translated from `App::update` (lines 200-275); the
menu-bar custom-effect queueing and the profile-list selection live in
widget modules not under `src/` and are modelled from the spec (§4.3:
`queue` is valid only from `None`, gated by the UI). -/
inductive UiOp where
  | noop
  | editZoneColor (i : Fin 4) (c : RGB)
  | editGlobalColor (c : RGB)
  | editOptions
  | selectEffect (e : Effects)
  | stopCustom
  | queueCustom (e : CustomEffect)
  | selectProfile (p : Profile)
deriving DecidableEq

/-- Translation of the UI-interaction effects on the coordination state; the
color editors are enabled only when the selected effect takes a color array
and no custom effect is queued or playing (`ui.set_enabled`, line 212), the
effect options only when no custom effect is active (line 240); selecting a
built-in effect clears the custom effect (lines 266-269); the stop button is
shown only while a custom effect plays (lines 249-252). -/
def applyUi (s : AppState) : UiOp → AppState
  | UiOp.noop => s
  | UiOp.editZoneColor i c =>
    if s.profile.effect.takes_color_array && s.custom_effect.is_none then
      { s with
        profile := { s.profile with rgb_zones := s.profile.rgb_zones.set i.val c },
        profile_changed := true }
    else s
  | UiOp.editGlobalColor c =>
    if s.profile.effect.takes_color_array && s.custom_effect.is_none then
      { s with
        profile := { s.profile with rgb_zones := s.profile.rgb_zones.map (fun _ => c) },
        global_rgb := c,
        profile_changed := true }
    else s
  | UiOp.editOptions =>
    if s.custom_effect.is_none then { s with profile_changed := true } else s
  | UiOp.selectEffect e =>
    { s with
      profile := { s.profile with effect := e },
      profile_changed := true,
      custom_effect := CustomEffectState.none }
  | UiOp.stopCustom =>
    if s.custom_effect.is_playing then
      { s with custom_effect := CustomEffectState.none, profile_changed := true }
    else s
  | UiOp.queueCustom e =>
    if s.custom_effect.is_none then
      { s with custom_effect := CustomEffectState.queued e }
    else s
  | UiOp.selectProfile p =>
    { s with profile := p, profile_changed := true }

/-- Enabledness of the per-zone and global color editors
(`ui.set_enabled(self.profile.effect.takes_color_array() && self.custom_effect.is_none())`,
`gui/mod.rs` line 212). -/
def color_controls_enabled (s : AppState) : Bool :=
  s.profile.effect.takes_color_array && s.custom_effect.is_none

/-- Enabledness of the effect-options panel
(`ui.set_enabled(self.custom_effect.is_none())`, `gui/mod.rs` line 240). -/
def effect_options_enabled (s : AppState) : Bool :=
  s.custom_effect.is_none

/-- Modelled from the spec: `Settings::load_or_default` (`persist` module, not
under `src/`) loads the settings file, falling back to defaults when it is
missing or malformed; the file content is modelled as `Option Settings`. -/
def load_or_default (disk : Option Settings) : Settings :=
  disk.getD default

/-- Translation of `App::on_exit` (`gui/mod.rs` lines 303-315): reload the
settings file with `load_or_default`, overwrite its `profiles`, `ui_state`
and `updates` fields with the in-memory values, and save.  Returns the
settings written to disk. -/
def on_exit (s : AppState) (disk : Option Settings) : Settings :=
  let settings := load_or_default disk
  { settings with
    profiles := s.profile_list,
    ui_state := s.profile,
    updates := s.update_data }

/-- Result of the message-drain phase: either the tick continues with an
updated state and channel, or `exit_app` ran (persisting `written`) and the
process terminated. -/
inductive DrainOut where
  | go (s : AppState) (chan : List GuiMessage)
  | exit (s : AppState) (chan : List GuiMessage) (written : Settings)
deriving DecidableEq

/-- Translation of the channel drain at the top of `App::update`
(`gui/mod.rs` lines 174-182): when the receiver was retained, one
non-blocking `try_recv` pops the oldest pending message (the channel is FIFO)
and dispatches it; `Quit` runs `exit_app`, which persists via `on_exit` and
terminates the process. -/
def drainPhase (s : AppState) (chan : List GuiMessage) (disk : Option Settings) : DrainOut :=
  if s.window_open_rx then
    match chan with
    | [] => DrainOut.go s []
    | m :: rest =>
      match m with
      | GuiMessage.showWindow => DrainOut.go { s with show_window := true } rest
      | GuiMessage.cycleProfiles => DrainOut.go (cycle_profiles s) rest
      | GuiMessage.quit => DrainOut.exit s rest (on_exit s disk)
  else DrainOut.go s chan

/-- The channel contents after the drain phase. -/
def chanAfter : DrainOut → List GuiMessage
  | DrainOut.go _ c => c
  | DrainOut.exit _ c _ => c

/-- The external interactions of one tick: the pending settings-file content
(read only if the tick exits), the modal confirmations, one UI interaction,
and whether the host requested a window close after the frame. -/
structure TickInput where
  disk : Option Settings
  skipUpdateClicked : Bool
  dismissUpdateClicked : Bool
  uniqueConfirmed : Bool
  managerConfirmed : Bool
  uiOp : UiOp
  closeRequested : Bool
deriving DecidableEq

/-- Modelled from the spec: the update-available modal (`modals` module, not
under `src/`) is shown while no skip was requested and a pending version
exists (`gui/mod.rs` lines 184-188); the user may opt to skip the version or
dismiss the notice. -/
def updateModalPhase (s : AppState) (inp : TickInput) : AppState :=
  if !s.update_data.skip_version && s.update_data.version_name.isSome then
    { s with
      update_data := { s.update_data with
        skip_version := s.update_data.skip_version || inp.skipUpdateClicked },
      show_update_modal := s.show_update_modal && !inp.dismissUpdateClicked }
  else s

/-- Result of one tick: either the loop continues, or the process terminated
after persisting `written`; `sAtExit` is the in-memory state at the moment of
the shutdown write, and `calls` the forward calls made during the tick. -/
inductive TickResult where
  | cont (s : AppState) (chan : List GuiMessage) (calls : List ForwardCall)
  | exited (sAtExit : AppState) (chan : List GuiMessage) (calls : List ForwardCall) (written : Settings)
deriving DecidableEq

/-- Decides whether a tick terminated the process. -/
def isExited : TickResult → Bool
  | TickResult.cont _ _ _ => false
  | TickResult.exited _ _ _ _ => true

/-- The portion of `App::update` after the drain phase: the update modal
(lines 184-188), the unique-instance and manager-error modals whose
confirmation runs `exit_app` (lines 190-196), the UI interactions, the commit
step, and finally `on_close_event` (lines 294-301): with a retained receiver a
close request merely hides the window, otherwise the host persists via
`on_exit` and terminates. -/
def tickAfterDrain (s1 : AppState) (c : List GuiMessage) (inp : TickInput) : TickResult :=
  let s2 := updateModalPhase s1 inp
  if !s2.unique_instance && inp.uniqueConfirmed then
    TickResult.exited s2 c [] (on_exit s2 inp.disk)
  else if !s2.manager && inp.managerConfirmed then
    TickResult.exited s2 c [] (on_exit s2 inp.disk)
  else
    let s3 := applyUi s2 inp.uiOp
    let sc := commitStep s3
    if inp.closeRequested then
      if sc.1.window_open_rx then
        TickResult.cont { sc.1 with show_window := false } c sc.2
      else
        TickResult.exited sc.1 c sc.2 (on_exit sc.1 inp.disk)
    else TickResult.cont sc.1 c sc.2

/-- One full tick of the main loop (`App::update` plus the host close event). -/
def tick (s : AppState) (chan : List GuiMessage) (inp : TickInput) : TickResult :=
  match drainPhase s chan inp.disk with
  | DrainOut.exit sE c w => TickResult.exited sE c [] w
  | DrainOut.go s1 c => tickAfterDrain s1 c inp

/-- Result of running the main loop over a sequence of tick inputs: either
still running, or terminated; `writes` collects every settings-store write
performed during the whole run. -/
inductive RunResult where
  | running (s : AppState) (chan : List GuiMessage) (writes : List Settings)
  | done (sAtExit : AppState) (writes : List Settings)
deriving DecidableEq

/-- The main loop: ticks run until one terminates the process; a terminating
tick performs exactly its shutdown write and nothing runs afterwards. -/
def run (s : AppState) (chan : List GuiMessage) : List TickInput → RunResult
  | [] => RunResult.running s chan []
  | inp :: rest =>
    match tick s chan inp with
    | TickResult.cont s1 c1 _ => run s1 c1 rest
    | TickResult.exited sE _ _ w => RunResult.done sE [w]

/-- The keys the hotkey listener distinguishes (`rdev::Key::AltGr`,
`rdev::Key::MetaLeft`, and every other key). -/
inductive Key where
  | altGr
  | metaLeft
  | other (code : Nat)
deriving DecidableEq

/-- Raw input events the listener thread observes (`rdev::EventType`):
key presses, key releases, and every other event kind. -/
inductive RawEvent where
  | keyPress (k : Key)
  | keyRelease (k : Key)
  | otherEvent
deriving DecidableEq

/-- The two modifier flags of the hotkey listener thread spawned in
`App::init` (`gui/mod.rs` lines 136-163). -/
structure ListenerState where
  modifier_pressed : Bool
  meta_pressed : Bool
deriving DecidableEq, Inhabited

/-- Translation of one iteration of the listener loop in `App::init`
(lines 141-162): a press of a watched key sets its flag; after every press
event of any key, both flags being set emits a `CycleProfiles` message; a
release of a watched key clears its flag; everything else is ignored. -/
def listenerStep (st : ListenerState) : RawEvent → ListenerState × List GuiMessage
  | RawEvent.keyPress k =>
    let st1 :=
      match k with
      | Key.altGr => { st with modifier_pressed := true }
      | Key.metaLeft => { st with meta_pressed := true }
      | Key.other _ => st
    if st1.modifier_pressed && st1.meta_pressed then
      (st1, [GuiMessage.cycleProfiles])
    else (st1, [])
  | RawEvent.keyRelease k =>
    (match k with
     | Key.altGr => { st with modifier_pressed := false }
     | Key.metaLeft => { st with meta_pressed := false }
     | Key.other _ => st, [])
  | RawEvent.otherEvent => (st, [])

/-- The listener loop over a finite stream of raw events, collecting every
emitted message in order. -/
def listenerRun (st : ListenerState) : List RawEvent → ListenerState × List GuiMessage
  | [] => (st, [])
  | e :: es =>
    let r1 := listenerStep st e
    let r2 := listenerRun r1.1 es
    (r2.1, r1.2 ++ r2.2)

/-- The valid custom-effect transitions named by the specification:
`None → Queued` (queue), `Queued → Playing` (commit), `Playing → None`
(stop), and clearing from any state to `None`. -/
inductive ValidEdge : CustomEffectState → CustomEffectState → Prop where
  | queue (e : CustomEffect) : ValidEdge CustomEffectState.none (CustomEffectState.queued e)
  | commit (e : CustomEffect) : ValidEdge (CustomEffectState.queued e) CustomEffectState.playing
  | stop : ValidEdge CustomEffectState.playing CustomEffectState.none
  | clear (st : CustomEffectState) : ValidEdge st CustomEffectState.none

/-- A step of the custom-effect state either leaves it unchanged or follows a
valid edge. -/
def EdgeOk (a b : CustomEffectState) : Prop := a = b ∨ ValidEdge a b

/-- Correctness of the writes a whole run performs: a still-running loop has
written nothing; a terminated loop has written exactly once, and the written
settings carry exactly the profile list, active profile and updates of the
in-memory state at the moment of shutdown. -/
def WritesOk : RunResult → Prop
  | RunResult.running _ _ writes => writes = []
  | RunResult.done sE writes =>
    ∃ w, writes = [w] ∧ w.profiles = sE.profile_list ∧
      w.ui_state = sE.profile ∧ w.updates = sE.update_data

/-- A built-in effect identifier that accepts per-zone colors. -/
def effStatic : Effects := { id := 0, takes_color_array := true }

/-- Concrete profile named "A". -/
def profA : Profile :=
  { name := "A", effect := effStatic, rgb_zones := [(1, 0, 0), (1, 0, 0), (1, 0, 0), (1, 0, 0)] }

/-- Concrete profile named "B". -/
def profB : Profile :=
  { name := "B", effect := effStatic, rgb_zones := [(0, 1, 0), (0, 1, 0), (0, 1, 0), (0, 1, 0)] }

/-- Concrete profile named "C". -/
def profC : Profile :=
  { name := "C", effect := effStatic, rgb_zones := [(0, 0, 1), (0, 0, 1), (0, 0, 1), (0, 0, 1)] }

/-- Concrete custom-effect payload. -/
def effE0 : CustomEffect := { data := [1, 2, 3] }

/-- Concrete application state: tray active, manager present, profiles
[A, B, C] with B active, no custom effect, flag clear. -/
def stABC : AppState :=
  { unique_instance := true
    show_window := true
    window_open_rx := true
    update_data := { version_name := Option.none, skip_version := false }
    show_update_modal := true
    manager := true
    profile := profB
    profile_changed := false
    custom_effect := CustomEffectState.none
    profile_list := [profA, profB, profC]
    global_rgb := (0, 0, 0) }

lemma get_congr (l : List Profile) (a b : Nat) (ha : a < l.length) (hb : b < l.length)
    (h : a = b) : l.get ⟨a, ha⟩ = l.get ⟨b, hb⟩ := by
  subst h
  rfl

lemma getD_eq_get (l : List Profile) (n : Nat) (d : Profile) (h : n < l.length) :
    l.getD n d = l.get ⟨n, h⟩ := by
  rw [List.getD_eq_get?, List.get?_eq_get h]
  rfl

lemma find_profile_index_of_not_mem (name : String) (l : List Profile)
    (h : name ∉ l.map Profile.name) :
    find_profile_index name l = Option.none := by
  induction l with
  | nil => rfl
  | cons p ps ih =>
    simp only [List.map_cons, List.mem_cons, not_or] at h
    have hne : ¬(p.name == name) = true := by
      simp only [beq_iff_eq]
      exact fun hh => h.1 hh.symm
    simp only [find_profile_index, if_neg hne, ih h.2]
    rfl

lemma find_profile_index_lt (name : String) :
    ∀ (l : List Profile) (i : Nat), find_profile_index name l = some i → i < l.length := by
  intro l
  induction l with
  | nil => intro i h; simp [find_profile_index] at h
  | cons p ps ih =>
    intro i h
    simp only [find_profile_index] at h
    by_cases hb : (p.name == name) = true
    · rw [if_pos hb] at h
      cases h
      exact Nat.succ_pos ps.length
    · rw [if_neg hb] at h
      cases hfind : find_profile_index name ps with
      | none => rw [hfind] at h; simp at h
      | some j =>
        rw [hfind] at h
        have h2 : j + 1 = i := Option.some.inj h
        have := ih j hfind
        simp only [List.length_cons]
        omega

lemma find_profile_index_eq_some (name : String) :
    ∀ (l : List Profile) (i : Nat) (hi : i < l.length),
      (l.get ⟨i, hi⟩).name = name →
      (∀ j (hj : j < l.length), j < i → (l.get ⟨j, hj⟩).name ≠ name) →
      find_profile_index name l = some i := by
  intro l
  induction l with
  | nil => intro i hi; exact absurd hi (Nat.not_lt_zero i)
  | cons p ps ih =>
    intro i hi hname hfirst
    cases i with
    | zero =>
      have hp : p.name = name := hname
      simp [find_profile_index, hp]
    | succ i1 =>
      have hp : p.name ≠ name := hfirst 0 (Nat.succ_pos ps.length) (Nat.succ_pos i1)
      have hi1 : i1 < ps.length := Nat.lt_of_succ_lt_succ hi
      have hrec : find_profile_index name ps = some i1 := by
        refine ih i1 hi1 hname ?_
        intro j hj hji
        exact hfirst (j + 1) (Nat.succ_lt_succ hj) (Nat.succ_lt_succ hji)
      have hpb : ¬(p.name == name) = true := by
        simp only [beq_iff_eq]
        exact hp
      simp only [find_profile_index, if_neg hpb, hrec]
      rfl

lemma find_profile_index_nodup :
    ∀ (l : List Profile) (k : Nat) (hk : k < l.length),
      (l.map Profile.name).Nodup →
      find_profile_index (l.get ⟨k, hk⟩).name l = some k := by
  intro l
  induction l with
  | nil => intro k hk; exact absurd hk (Nat.not_lt_zero k)
  | cons p ps ih =>
    intro k hk hnd
    rw [List.map_cons, List.nodup_cons] at hnd
    cases k with
    | zero => simp [find_profile_index]
    | succ k1 =>
      have hk1 : k1 < ps.length := Nat.lt_of_succ_lt_succ hk
      have hmem : (ps.get ⟨k1, hk1⟩).name ∈ ps.map Profile.name :=
        List.mem_map_of_mem Profile.name (ps.get_mem k1 hk1)
      have hp : ¬(p.name == (ps.get ⟨k1, hk1⟩).name) = true := by
        simp only [beq_iff_eq]
        exact fun hh => hnd.1 (hh ▸ hmem)
      have hrec := ih k1 hk1 hnd.2
      show find_profile_index (ps.get ⟨k1, hk1⟩).name (p :: ps) = some (k1 + 1)
      simp only [find_profile_index, if_neg hp, hrec]
      rfl

lemma cycle_profiles_at_index (s : AppState) (i : Nat)
    (hfind : find_profile_index s.profile.name s.profile_list = some i) :
    cycle_profiles s =
      if i = s.profile_list.length - 1 then
        { s with profile := s.profile_list.getD 0 default, profile_changed := true }
      else
        { s with profile := s.profile_list.getD (i + 1) default, profile_changed := true } := by
  unfold cycle_profiles
  rw [hfind]

lemma cycle_profiles_no_match (s : AppState)
    (hfind : find_profile_index s.profile.name s.profile_list = Option.none) :
    cycle_profiles s = s := by
  unfold cycle_profiles
  rw [hfind]

lemma cycle_profiles_nodup_step (s : AppState) (l : List Profile) (k : Nat)
    (hl : s.profile_list = l) (hk : k < l.length)
    (hnd : (l.map Profile.name).Nodup)
    (hp : s.profile = l.get ⟨k, hk⟩) (hpos : 0 < l.length) :
    (cycle_profiles s).profile = l.get ⟨(k + 1) % l.length, Nat.mod_lt _ hpos⟩ ∧
    (cycle_profiles s).profile_list = l := by
  subst hl
  have hfind : find_profile_index s.profile.name s.profile_list = some k := by
    rw [hp]
    exact find_profile_index_nodup s.profile_list k hk hnd
  rw [cycle_profiles_at_index s k hfind]
  by_cases hlast : k = s.profile_list.length - 1
  · rw [if_pos hlast]
    refine ⟨?_, rfl⟩
    show s.profile_list.getD 0 default = _
    rw [getD_eq_get s.profile_list 0 default hpos]
    refine get_congr _ _ _ _ _ ?_
    have hkl : k + 1 = s.profile_list.length := by omega
    rw [hkl, Nat.mod_self]
  · rw [if_neg hlast]
    refine ⟨?_, rfl⟩
    have hk1 : k + 1 < s.profile_list.length := by omega
    show s.profile_list.getD (k + 1) default = _
    rw [getD_eq_get s.profile_list (k + 1) default hk1]
    refine get_congr _ _ _ _ _ ?_
    rw [Nat.mod_eq_of_lt hk1]

lemma cycle_profiles_iterate (l : List Profile) (hpos : 0 < l.length)
    (hnd : (l.map Profile.name).Nodup) :
    ∀ (m : Nat) (s : AppState) (k : Nat) (hk : k < l.length),
      s.profile_list = l → s.profile = l.get ⟨k, hk⟩ →
      (cycle_profiles^[m] s).profile_list = l ∧
      (cycle_profiles^[m] s).profile = l.get ⟨(k + m) % l.length, Nat.mod_lt _ hpos⟩ := by
  intro m
  induction m with
  | zero =>
    intro s k hk hl hp
    simp only [Function.iterate_zero_apply]
    refine ⟨hl, ?_⟩
    rw [hp]
    refine get_congr _ _ _ _ _ ?_
    rw [Nat.add_zero, Nat.mod_eq_of_lt hk]
  | succ m ih =>
    intro s k hk hl hp
    have prev := ih s k hk hl hp
    rw [Function.iterate_succ_apply']
    have hk2 : (k + m) % l.length < l.length := Nat.mod_lt _ hpos
    have step := cycle_profiles_nodup_step (cycle_profiles^[m] s) l ((k + m) % l.length)
      prev.1 hk2 hnd prev.2 hpos
    refine ⟨step.2, ?_⟩
    rw [step.1]
    refine get_congr _ _ _ _ _ ?_
    rw [Nat.mod_add_mod, Nat.add_assoc]

/-- Profile that shares the name "A" with `profA` but differs in content. -/
def profA2 : Profile :=
  { name := "A", effect := effStatic, rgb_zones := [(9, 9, 9), (9, 9, 9), (9, 9, 9), (9, 9, 9)] }

/-- State whose active profile only name-matches the single list entry. -/
def stNameOnly : AppState := { stABC with profile := profA2, profile_list := [profA] }

/-- State whose profile list is empty. -/
def stEmptyList : AppState := { stABC with profile_list := [] }

/-- C3: the profile-cycling operation finds the first index whose profile name
equals the active profile's name; if that index is the last index it sets the
active profile to the profile at index 0, otherwise to the profile at the next
index, and in either case it sets the profile-changed flag.  With ProfileList
[A, B, C] and active B, one cycle yields active C with profile-changed true,
and a further cycle from active C yields active A. -/
theorem cycle_profiles_advances_and_wraps (s : AppState) (i : Nat)
    (hi : i < s.profile_list.length)
    (hname : (s.profile_list.get ⟨i, hi⟩).name = s.profile.name)
    (hfirst : ∀ j (hj : j < s.profile_list.length), j < i →
      (s.profile_list.get ⟨j, hj⟩).name ≠ s.profile.name) :
    ((cycle_profiles s).profile =
      if i = s.profile_list.length - 1 then s.profile_list.getD 0 default
      else s.profile_list.getD (i + 1) default) ∧
    (cycle_profiles s).profile_changed = true ∧
    (cycle_profiles stABC).profile = profC ∧
    (cycle_profiles stABC).profile_changed = true ∧
    (cycle_profiles (cycle_profiles stABC)).profile = profA := by
  have hfind := find_profile_index_eq_some s.profile.name s.profile_list i hi hname hfirst
  by_cases hlast : i = s.profile_list.length - 1
  · rw [cycle_profiles_at_index s i hfind, if_pos hlast]
    exact ⟨by rw [if_pos hlast], rfl, by decide, by decide, by decide⟩
  · rw [cycle_profiles_at_index s i hfind, if_neg hlast]
    exact ⟨by rw [if_neg hlast], rfl, by decide, by decide, by decide⟩

/-- Witness for C3: the hypotheses hold at `stABC` with first matching index 1,
and cycling there sets the profile-changed flag. -/
theorem cycle_profiles_advances_and_wraps_witness :
    (cycle_profiles stABC).profile_changed = true ∧ (cycle_profiles stABC).profile = profC := by
  have h := cycle_profiles_advances_and_wraps stABC 1 (by decide) (by decide)
    (by
      intro j hj hj1
      have hj0 : j = 0 := by omega
      subst hj0
      exact (by decide : profA.name ≠ profB.name))
  exact ⟨h.2.1, h.2.2.1⟩

/-- C4 (amended): for every ProfileList of size n ≥ 1 whose profile names are
distinct and every active profile that is an element of the list, applying the
profile-cycling operation n times returns the active profile to the original
one and leaves the list unchanged. -/
theorem cycle_profiles_period_of_mem (s : AppState)
    (hnd : (s.profile_list.map Profile.name).Nodup)
    (hmem : s.profile ∈ s.profile_list)
    (hn : 1 ≤ s.profile_list.length) :
    (cycle_profiles^[s.profile_list.length] s).profile = s.profile ∧
    (cycle_profiles^[s.profile_list.length] s).profile_list = s.profile_list := by
  obtain ⟨⟨k, hk⟩, hget⟩ := List.mem_iff_get.mp hmem
  have res := cycle_profiles_iterate s.profile_list hn hnd s.profile_list.length s k hk rfl
    hget.symm
  refine ⟨?_, res.1⟩
  rw [res.2, ← hget]
  exact get_congr _ _ _ _ _ (by rw [Nat.add_mod_right, Nat.mod_eq_of_lt hk])

/-- Witness for C4 (amended): the hypotheses hold at `stABC` (three distinct
names, active profile B is an element), and three cycles return to B. -/
theorem cycle_profiles_period_of_mem_witness :
    (cycle_profiles^[stABC.profile_list.length] stABC).profile = stABC.profile :=
  (cycle_profiles_period_of_mem stABC (by decide) (by decide) (by decide)).1

/-- Counterexample to C4 as stated: at `stNameOnly` the list has one profile
with distinct names and the active profile's name occurs in the list, yet
cycling n = 1 times does not return the original active profile (the active
profile is replaced by the list entry of the same name, which differs in
content). -/
theorem cycle_profiles_period_name_cex :
    (stNameOnly.profile_list.map Profile.name).Nodup ∧
    stNameOnly.profile.name ∈ stNameOnly.profile_list.map Profile.name ∧
    1 ≤ stNameOnly.profile_list.length ∧
    (cycle_profiles^[stNameOnly.profile_list.length] stNameOnly).profile ≠ stNameOnly.profile := by
  refine ⟨by decide, by decide, by decide, ?_⟩
  show (cycle_profiles^[1] stNameOnly).profile ≠ stNameOnly.profile
  rw [Function.iterate_one]
  decide

/-- C5: for every ProfileList (including the empty list) and every active
profile whose name does not occur in the list, profile cycling is a no-op:
the whole application state — in particular the active profile, the list and
the profile-changed flag — is unchanged, and the operation is total. -/
theorem cycle_profiles_absent_noop (s : AppState)
    (h : s.profile.name ∉ s.profile_list.map Profile.name) :
    cycle_profiles s = s :=
  cycle_profiles_no_match s (find_profile_index_of_not_mem s.profile.name s.profile_list h)

/-- Witness for C5: cycling with an empty profile list leaves the state
unchanged. -/
theorem cycle_profiles_absent_noop_witness : cycle_profiles stEmptyList = stEmptyList :=
  cycle_profiles_absent_noop stEmptyList (by decide)

/-- State with a queued custom effect, the flag set, and no manager. -/
def stQueuedNoMgr : AppState :=
  { stABC with
    manager := false
    custom_effect := CustomEffectState.queued effE0
    profile_changed := true }

/-- C2: from a state whose custom-effect state is `None`, queueing a custom
effect E and then running the coordinator's commit step with the
profile-changed flag set and the manager present makes the Effect Manager
Facade receive exactly one forward call carrying E, leaves the custom-effect
state `Playing`, and from the resulting state no commit step can ever forward
anything again (the payload was moved, so a second forward of E is
impossible). -/
theorem queue_then_commit_forwards_once (s : AppState) (e : CustomEffect)
    (h0 : s.custom_effect = CustomEffectState.none) (hm : s.manager = true) :
    (commitStep { applyUi s (UiOp.queueCustom e) with profile_changed := true }).2
      = [ForwardCall.customEffect e] ∧
    (commitStep { applyUi s (UiOp.queueCustom e) with
        profile_changed := true }).1.custom_effect = CustomEffectState.playing ∧
    ∀ b, (commitStep { (commitStep { applyUi s (UiOp.queueCustom e) with
        profile_changed := true }).1 with profile_changed := b }).2 = [] := by
  have hq : applyUi s (UiOp.queueCustom e) = { s with custom_effect := CustomEffectState.queued e } := by
    simp [applyUi, h0, CustomEffectState.is_none]
  rw [hq]
  have hcommit :
      commitStep { s with custom_effect := CustomEffectState.queued e, profile_changed := true }
      = ({ s with custom_effect := CustomEffectState.playing, profile_changed := false },
         [ForwardCall.customEffect e]) := by
    simp [commitStep, hm, CustomEffectState.is_none, CustomEffectState.is_queued]
  rw [hcommit]
  refine ⟨rfl, rfl, ?_⟩
  intro b
  cases b <;>
    simp [commitStep, hm, CustomEffectState.is_none, CustomEffectState.is_queued]

/-- Witness for C2: queueing `effE0` at `stABC` and committing forwards it
exactly once and reaches `Playing`. -/
theorem queue_then_commit_forwards_once_witness :
    (commitStep { applyUi stABC (UiOp.queueCustom effE0) with profile_changed := true }).2
      = [ForwardCall.customEffect effE0] ∧
    (commitStep { applyUi stABC (UiOp.queueCustom effE0) with
        profile_changed := true }).1.custom_effect = CustomEffectState.playing := by
  have h := queue_then_commit_forwards_once stABC effE0 (by decide) (by decide)
  exact ⟨h.1, h.2.1⟩

/-- C10: with the manager absent and the profile-changed flag set, the commit
step clears the flag, makes no forward call, and leaves every other field —
in particular a queued custom effect stays queued — unchanged. -/
theorem commit_without_manager (s : AppState) (hm : s.manager = false)
    (hp : s.profile_changed = true) :
    commitStep s = ({ s with profile_changed := false }, []) ∧
    (commitStep s).1.custom_effect = s.custom_effect := by
  have h1 : commitStep s = ({ s with profile_changed := false }, []) := by
    simp [commitStep, hp, hm]
  exact ⟨h1, by rw [h1]⟩

/-- Witness for C10: at a state with a queued effect, the set flag and no
manager, the commit step only clears the flag and the effect stays queued. -/
theorem commit_without_manager_witness :
    commitStep stQueuedNoMgr = ({ stQueuedNoMgr with profile_changed := false }, []) ∧
    (commitStep stQueuedNoMgr).1.custom_effect = stQueuedNoMgr.custom_effect :=
  commit_without_manager stQueuedNoMgr (by decide) (by decide)

/-- C1 (amended): on every tick the coordinator performs at most one
non-blocking receive on the Message Channel: with the receiver retained and
messages pending, exactly the oldest pending message (the FIFO head) is
received and acted on and the rest remain queued in order; with no pending
message, or no retained receiver, the tick proceeds without acting on any.
The received message is dispatched so that ShowWindow sets the window visible,
CycleProfiles invokes the profile-cycling algorithm, and Quit triggers orderly
shutdown (persist then terminate). -/
theorem drain_receives_oldest (s : AppState) (m : GuiMessage) (rest : List GuiMessage)
    (disk : Option Settings) :
    (s.window_open_rx = true →
      chanAfter (drainPhase s (m :: rest) disk) = rest ∧
      drainPhase s [] disk = DrainOut.go s [] ∧
      (m = GuiMessage.showWindow →
        drainPhase s (m :: rest) disk = DrainOut.go { s with show_window := true } rest) ∧
      (m = GuiMessage.cycleProfiles →
        drainPhase s (m :: rest) disk = DrainOut.go (cycle_profiles s) rest) ∧
      (m = GuiMessage.quit →
        drainPhase s (m :: rest) disk = DrainOut.exit s rest (on_exit s disk))) ∧
    (s.window_open_rx = false → drainPhase s (m :: rest) disk = DrainOut.go s (m :: rest)) := by
  constructor
  · intro hrx
    cases m <;> simp [drainPhase, hrx, chanAfter]
  · intro hrx
    simp [drainPhase, hrx]

/-- Witness for C1 (amended): at `stABC` with only a Quit message pending, the
tick receives it and shuts down orderly, persisting via `on_exit`. -/
theorem drain_receives_oldest_witness :
    drainPhase stABC [GuiMessage.quit] Option.none
      = DrainOut.exit stABC [] (on_exit stABC Option.none) :=
  ((drain_receives_oldest stABC GuiMessage.quit [] Option.none).1 rfl).2.2.2.2 rfl

/-- Counterexample to C1 as stated: at `stABC` with pending messages
[ShowWindow, Quit] (ShowWindow oldest, Quit most recent), the tick acts on
ShowWindow — revealing the window, not shutting down — while the most recent
pending message, Quit, remains queued. -/
theorem drain_most_recent_cex :
    drainPhase stABC [GuiMessage.showWindow, GuiMessage.quit] Option.none
      = DrainOut.go { stABC with show_window := true } [GuiMessage.quit] ∧
    GuiMessage.quit ∈
      chanAfter (drainPhase stABC [GuiMessage.showWindow, GuiMessage.quit] Option.none) ∧
    GuiMessage.showWindow ≠ GuiMessage.quit := by
  decide

/-- C8 (amended): a press of one watched modifier while the other is held
emits exactly one CycleProfiles message per press event; releasing a watched
modifier clears its flag (so re-pressing re-arms the detector) and emits
nothing; presses of other keys change no flags, but while both watched
modifiers are held a press of any key — not only a watched one — also emits a
CycleProfiles message (emissions are per press event and not deduplicated);
all remaining events are ignored. -/
theorem listener_step_spec (st : ListenerState) (c : Nat) :
    listenerStep st (RawEvent.keyPress Key.altGr)
      = ({ st with modifier_pressed := true },
         if st.meta_pressed then [GuiMessage.cycleProfiles] else []) ∧
    listenerStep st (RawEvent.keyPress Key.metaLeft)
      = ({ st with meta_pressed := true },
         if st.modifier_pressed then [GuiMessage.cycleProfiles] else []) ∧
    listenerStep st (RawEvent.keyPress (Key.other c))
      = (st, if st.modifier_pressed && st.meta_pressed then [GuiMessage.cycleProfiles] else []) ∧
    listenerStep st (RawEvent.keyRelease Key.altGr)
      = ({ st with modifier_pressed := false }, []) ∧
    listenerStep st (RawEvent.keyRelease Key.metaLeft)
      = ({ st with meta_pressed := false }, []) ∧
    listenerStep st (RawEvent.keyRelease (Key.other c)) = (st, []) ∧
    listenerStep st RawEvent.otherEvent = (st, []) := by
  obtain ⟨a, b⟩ := st
  cases a <;> cases b <;> simp [listenerStep]

/-- Counterexample to C8 as stated: pressing AltGr, then MetaLeft (the one
qualifying chord), then an unrelated key emits two CycleProfiles messages, and
the unrelated key press itself emits one — other keys are not ignored. -/
theorem listener_other_key_cex :
    (listenerRun { modifier_pressed := false, meta_pressed := false }
      [RawEvent.keyPress Key.altGr, RawEvent.keyPress Key.metaLeft,
       RawEvent.keyPress (Key.other 30)]).2
      = [GuiMessage.cycleProfiles, GuiMessage.cycleProfiles] ∧
    (listenerStep { modifier_pressed := true, meta_pressed := true }
      (RawEvent.keyPress (Key.other 30))).2 ≠ [] := by
  decide

lemma is_none_iff (c : CustomEffectState) :
    c.is_none = true ↔ c = CustomEffectState.none := by
  cases c <;> simp [CustomEffectState.is_none]

lemma commit_custom_edge (s : AppState) :
    ((commitStep s).1).custom_effect = s.custom_effect ∨
    ∃ e, s.custom_effect = CustomEffectState.queued e ∧
      ((commitStep s).1).custom_effect = CustomEffectState.playing := by
  cases hp : s.profile_changed with
  | false =>
    left
    simp [commitStep, hp]
  | true =>
    cases hm : s.manager with
    | false =>
      left
      simp [commitStep, hp, hm]
    | true =>
      cases hc : s.custom_effect with
      | none =>
        left
        simp [commitStep, hp, hm, hc, CustomEffectState.is_none]
      | queued e =>
        right
        refine ⟨e, rfl, ?_⟩
        simp [commitStep, hp, hm, hc, CustomEffectState.is_none, CustomEffectState.is_queued]
      | playing =>
        left
        simp [commitStep, hp, hm, hc, CustomEffectState.is_none, CustomEffectState.is_queued]

lemma applyUi_custom_edge (s : AppState) (op : UiOp) :
    (applyUi s op).custom_effect = s.custom_effect ∨
    (s.custom_effect = CustomEffectState.none ∧
      ∃ e, (applyUi s op).custom_effect = CustomEffectState.queued e) ∨
    (applyUi s op).custom_effect = CustomEffectState.none := by
  cases op with
  | noop => left; rfl
  | editZoneColor i c =>
    left
    cases h : s.profile.effect.takes_color_array && s.custom_effect.is_none <;>
      simp [applyUi, h]
  | editGlobalColor c =>
    left
    cases h : s.profile.effect.takes_color_array && s.custom_effect.is_none <;>
      simp [applyUi, h]
  | editOptions =>
    left
    cases h : s.custom_effect.is_none <;> simp [applyUi, h]
  | selectEffect e =>
    right; right
    simp [applyUi]
  | stopCustom =>
    cases h : s.custom_effect.is_playing with
    | false => left; simp [applyUi, h]
    | true => right; right; simp [applyUi, h]
  | queueCustom e =>
    cases h : s.custom_effect.is_none with
    | false => left; simp [applyUi, h]
    | true =>
      right; left
      exact ⟨(is_none_iff s.custom_effect).mp h, e, by simp [applyUi, h]⟩
  | selectProfile p => left; rfl

/-- State with a queued custom effect, the flag set, and the manager present. -/
def stQueuedFlag : AppState :=
  { stABC with
    custom_effect := CustomEffectState.queued effE0
    profile_changed := true }

/-- C6: in every tick of the main loop the custom-effect state follows only
the valid edges None → Queued → Playing → None plus clear from any state to
None: each of the UI phase and the commit phase either leaves the state
unchanged or takes a valid edge, the commit phase reaches Playing only from
Queued or Playing, and the UI phase never creates Playing. -/
theorem custom_effect_valid_transitions (s : AppState) (op : UiOp) :
    EdgeOk s.custom_effect (applyUi s op).custom_effect ∧
    EdgeOk (applyUi s op).custom_effect ((commitStep (applyUi s op)).1).custom_effect ∧
    (((commitStep (applyUi s op)).1).custom_effect = CustomEffectState.playing →
      (applyUi s op).custom_effect = CustomEffectState.playing ∨
      ∃ e, (applyUi s op).custom_effect = CustomEffectState.queued e) ∧
    ((applyUi s op).custom_effect = CustomEffectState.playing →
      s.custom_effect = CustomEffectState.playing) := by
  refine ⟨?_, ?_, ?_, ?_⟩
  · rcases applyUi_custom_edge s op with h | ⟨h0, e, h⟩ | h
    · exact Or.inl h.symm
    · right
      rw [h0, h]
      exact ValidEdge.queue e
    · right
      rw [h]
      exact ValidEdge.clear _
  · rcases commit_custom_edge (applyUi s op) with h | ⟨e, he, h⟩
    · exact Or.inl h.symm
    · right
      rw [he, h]
      exact ValidEdge.commit e
  · intro hpl
    rcases commit_custom_edge (applyUi s op) with h | ⟨e, he, h⟩
    · left
      rw [← h]
      exact hpl
    · right
      exact ⟨e, he⟩
  · intro hpl
    rcases applyUi_custom_edge s op with h | ⟨h0, e, h⟩ | h
    · rw [← h]
      exact hpl
    · rw [h] at hpl
      exact CustomEffectState.noConfusion hpl
    · rw [h] at hpl
      exact CustomEffectState.noConfusion hpl

/-- Witness for C6: at `stQueuedFlag` with no UI interaction, the UI phase
keeps the queued state and the commit phase takes the Queued → Playing edge,
with Playing entered from a Queued state. -/
theorem custom_effect_valid_transitions_witness :
    EdgeOk stQueuedFlag.custom_effect (applyUi stQueuedFlag UiOp.noop).custom_effect ∧
    EdgeOk (applyUi stQueuedFlag UiOp.noop).custom_effect
      ((commitStep (applyUi stQueuedFlag UiOp.noop)).1).custom_effect ∧
    ((applyUi stQueuedFlag UiOp.noop).custom_effect = CustomEffectState.playing ∨
      ∃ e, (applyUi stQueuedFlag UiOp.noop).custom_effect = CustomEffectState.queued e) := by
  have h := custom_effect_valid_transitions stQueuedFlag UiOp.noop
  exact ⟨h.1, h.2.1, h.2.2.1 (by decide)⟩

lemma cycle_profiles_manager (s : AppState) : (cycle_profiles s).manager = s.manager := by
  cases h : find_profile_index s.profile.name s.profile_list with
  | none => rw [cycle_profiles_no_match s h]
  | some i =>
    rw [cycle_profiles_at_index s i h]
    split <;> rfl

lemma applyUi_manager (s : AppState) (op : UiOp) : (applyUi s op).manager = s.manager := by
  cases op with
  | noop => rfl
  | editZoneColor i c =>
    cases h : s.profile.effect.takes_color_array && s.custom_effect.is_none <;>
      simp [applyUi, h]
  | editGlobalColor c =>
    cases h : s.profile.effect.takes_color_array && s.custom_effect.is_none <;>
      simp [applyUi, h]
  | editOptions => cases h : s.custom_effect.is_none <;> simp [applyUi, h]
  | selectEffect e => rfl
  | stopCustom => cases h : s.custom_effect.is_playing <;> simp [applyUi, h]
  | queueCustom e => cases h : s.custom_effect.is_none <;> simp [applyUi, h]
  | selectProfile p => rfl

lemma commitStep_manager (s : AppState) : ((commitStep s).1).manager = s.manager := by
  cases hp : s.profile_changed with
  | false => simp [commitStep, hp]
  | true =>
    cases hm : s.manager with
    | false => simp [commitStep, hp, hm]
    | true =>
      cases hc : s.custom_effect with
      | none => simp [commitStep, hp, hm, hc, CustomEffectState.is_none]
      | queued e =>
        simp [commitStep, hp, hm, hc, CustomEffectState.is_none, CustomEffectState.is_queued]
      | playing =>
        simp [commitStep, hp, hm, hc, CustomEffectState.is_none, CustomEffectState.is_queued]

lemma commitStep_calls_no_manager (s : AppState) (hm : s.manager = false) :
    (commitStep s).2 = [] := by
  cases hp : s.profile_changed with
  | false => simp [commitStep, hp]
  | true => simp [commitStep, hp, hm]

lemma updateModalPhase_manager (s : AppState) (inp : TickInput) :
    (updateModalPhase s inp).manager = s.manager := by
  unfold updateModalPhase
  split <;> rfl

lemma drain_go_manager (s : AppState) (chan : List GuiMessage) (disk : Option Settings)
    (s1 : AppState) (c1 : List GuiMessage)
    (h : drainPhase s chan disk = DrainOut.go s1 c1) : s1.manager = s.manager := by
  unfold drainPhase at h
  cases hrx : s.window_open_rx with
  | false =>
    simp only [hrx, Bool.false_eq_true, if_false] at h
    obtain ⟨h1, h2⟩ := DrainOut.go.inj h
    rw [← h1]
  | true =>
    simp only [hrx, if_true] at h
    cases chan with
    | nil =>
      obtain ⟨h1, h2⟩ := DrainOut.go.inj h
      rw [← h1]
    | cons m rest =>
      cases m with
      | showWindow =>
        obtain ⟨h1, h2⟩ := DrainOut.go.inj h
        rw [← h1]
      | cycleProfiles =>
        obtain ⟨h1, h2⟩ := DrainOut.go.inj h
        rw [← h1, cycle_profiles_manager]
      | quit => exact DrainOut.noConfusion h

lemma drain_exit_written (s : AppState) (chan : List GuiMessage) (disk : Option Settings)
    (sE : AppState) (c : List GuiMessage) (w : Settings)
    (h : drainPhase s chan disk = DrainOut.exit sE c w) : w = on_exit sE disk := by
  unfold drainPhase at h
  cases hrx : s.window_open_rx with
  | false =>
    simp only [hrx, Bool.false_eq_true, if_false] at h
    exact DrainOut.noConfusion h
  | true =>
    simp only [hrx, if_true] at h
    cases chan with
    | nil => exact DrainOut.noConfusion h
    | cons m rest =>
      cases m with
      | showWindow => exact DrainOut.noConfusion h
      | cycleProfiles => exact DrainOut.noConfusion h
      | quit =>
        obtain ⟨h1, h2, h3⟩ := DrainOut.exit.inj h
        rw [← h3, ← h1]

lemma tickAfterDrain_exit_written (s1 : AppState) (c : List GuiMessage) (inp : TickInput)
    (sE : AppState) (c2 : List GuiMessage) (calls : List ForwardCall) (w : Settings)
    (h : tickAfterDrain s1 c inp = TickResult.exited sE c2 calls w) :
    w = on_exit sE inp.disk := by
  simp only [tickAfterDrain] at h
  split at h
  · obtain ⟨h1, h2, h3, h4⟩ := TickResult.exited.inj h
    rw [← h4, ← h1]
  · split at h
    · obtain ⟨h1, h2, h3, h4⟩ := TickResult.exited.inj h
      rw [← h4, ← h1]
    · split at h
      · split at h
        · exact TickResult.noConfusion h
        · obtain ⟨h1, h2, h3, h4⟩ := TickResult.exited.inj h
          rw [← h4, ← h1]
      · exact TickResult.noConfusion h

lemma tick_exit_written (s : AppState) (chan : List GuiMessage) (inp : TickInput)
    (sE : AppState) (c2 : List GuiMessage) (calls : List ForwardCall) (w : Settings)
    (h : tick s chan inp = TickResult.exited sE c2 calls w) : w = on_exit sE inp.disk := by
  unfold tick at h
  cases hd : drainPhase s chan inp.disk with
  | exit sD cD wD =>
    rw [hd] at h
    obtain ⟨h1, h2, h3, h4⟩ := TickResult.exited.inj h
    rw [← h4, ← h1]
    exact drain_exit_written s chan inp.disk sD cD wD hd
  | go sg cg =>
    rw [hd] at h
    exact tickAfterDrain_exit_written sg cg inp sE c2 calls w h

lemma tick_cont_manager (s : AppState) (chan : List GuiMessage) (inp : TickInput)
    (s1 : AppState) (c1 : List GuiMessage) (calls : List ForwardCall)
    (h : tick s chan inp = TickResult.cont s1 c1 calls) :
    s1.manager = s.manager ∧ (s.manager = false → calls = []) := by
  unfold tick at h
  cases hd : drainPhase s chan inp.disk with
  | exit sD cD wD =>
    rw [hd] at h
    exact TickResult.noConfusion h
  | go sg cg =>
    rw [hd] at h
    have hg : sg.manager = s.manager := drain_go_manager s chan inp.disk sg cg hd
    have hmix : ((commitStep (applyUi (updateModalPhase sg inp) inp.uiOp)).1).manager
        = s.manager := by
      rw [commitStep_manager, applyUi_manager, updateModalPhase_manager, hg]
    have hcalls : s.manager = false →
        (commitStep (applyUi (updateModalPhase sg inp) inp.uiOp)).2 = [] := by
      intro hm
      refine commitStep_calls_no_manager _ ?_
      rw [applyUi_manager, updateModalPhase_manager, hg, hm]
    simp only [tickAfterDrain] at h
    split at h
    · exact TickResult.noConfusion h
    · split at h
      · exact TickResult.noConfusion h
      · split at h
        · split at h
          · obtain ⟨h1, h2, h3⟩ := TickResult.cont.inj h
            refine ⟨?_, ?_⟩
            · rw [← h1]
              exact hmix
            · intro hm
              rw [← h3]
              exact hcalls hm
          · exact TickResult.noConfusion h
        · obtain ⟨h1, h2, h3⟩ := TickResult.cont.inj h
          refine ⟨?_, ?_⟩
          · rw [← h1]
            exact hmix
          · intro hm
            rw [← h3]
            exact hcalls hm

lemma tick_manager_confirmed_exits (s : AppState) (chan : List GuiMessage) (inp : TickInput)
    (hm : s.manager = false) (hc : inp.managerConfirmed = true) :
    isExited (tick s chan inp) = true := by
  unfold tick
  cases hd : drainPhase s chan inp.disk with
  | exit sD cD wD => rfl
  | go sg cg =>
    have hg : sg.manager = s.manager := drain_go_manager s chan inp.disk sg cg hd
    have hs2 : (updateModalPhase sg inp).manager = false := by
      rw [updateModalPhase_manager, hg, hm]
    cases hu : !(updateModalPhase sg inp).unique_instance && inp.uniqueConfirmed with
    | true => simp [tickAfterDrain, hu, isExited]
    | false => simp [tickAfterDrain, hu, hs2, hc, isExited]

/-- State identical to `stABC` except that the manager is absent. -/
def stNoMgr : AppState := { stABC with manager := false }

/-- Tick input that only confirms the manager-error notice. -/
def inpMgrConfirm : TickInput :=
  { disk := Option.none
    skipUpdateClicked := false
    dismissUpdateClicked := false
    uniqueConfirmed := false
    managerConfirmed := true
    uiOp := UiOp.noop
    closeRequested := false }

/-- C7: during one process lifetime the Settings Store write operation is
executed at most once, at orderly shutdown, and the written Settings contain
exactly the final in-memory values of the ProfileList, the active Profile
(ui_state) and the Updates metadata at the moment of shutdown: a run that is
still going has written nothing, and a terminated run has written exactly one
Settings value whose three fields equal those of the state at the moment the
terminating tick shut down. -/
theorem settings_written_once_final (s : AppState) (chan : List GuiMessage)
    (inps : List TickInput) : WritesOk (run s chan inps) := by
  induction inps generalizing s chan with
  | nil => exact rfl
  | cons inp rest ih =>
    unfold run
    cases ht : tick s chan inp with
    | cont s1 c1 calls => exact ih s1 c1
    | exited sE c2 calls w =>
      have hw := tick_exit_written s chan inp sE c2 calls w ht
      exact ⟨w, rfl, by rw [hw]; rfl, by rw [hw]; rfl, by rw [hw]; rfl⟩

/-- Modelled from the spec: the manager-error notice (`modals::manager_error`,
`modals` module not under `src/`) is a "one-time modal" showing an "error
notice shown once": invoked on every tick while the manager is absent
(`gui/mod.rs` line 194), it puts the notice on screen on its first invocation
and keeps that single notice displayed — never re-creating it — until the user
confirms, which runs `exit_app`.  Given whether the notice was already put on
screen (`shown`), this counts the display events of the current tick. -/
def noticeShows (s : AppState) (shown : Bool) : Nat :=
  if !s.manager && !shown then 1 else 0

/-- Modelled from the spec: the number of times the manager-error notice is
put on screen over a whole process lifetime, threading the one-time modal's
shown flag through the ticks of the main loop; after a terminating tick
nothing runs, so nothing further is displayed. -/
def runNotices (s : AppState) (chan : List GuiMessage) (shown : Bool) :
    List TickInput → Nat
  | [] => 0
  | inp :: rest =>
    noticeShows s shown +
    match tick s chan inp with
    | TickResult.cont s1 c1 _ => runNotices s1 c1 (shown || !s.manager) rest
    | TickResult.exited _ _ _ _ => 0

lemma runNotices_already_shown (inps : List TickInput) :
    ∀ (s : AppState) (chan : List GuiMessage), runNotices s chan true inps = 0 := by
  induction inps with
  | nil =>
    intro s chan
    rfl
  | cons inp rest ih =>
    intro s chan
    unfold runNotices
    cases ht : tick s chan inp with
    | cont s1 c1 calls => simp [noticeShows, ih s1 c1]
    | exited a b c w => simp [noticeShows]

/-- Counterexample to C9 as stated: with the manager absent, the effect-
changing controls are not disabled — their enabledness conditions do not
consult the manager: at `stNoMgr` (manager construction failed, no custom
effect, a color-array effect selected) both the color editors and the effect
options are enabled. -/
theorem degraded_controls_enabled_cex :
    stNoMgr.manager = false ∧
    color_controls_enabled stNoMgr = true ∧
    effect_options_enabled stNoMgr = true := by
  decide

/-- C9 (amended): if construction of the effect backend fails at startup, the
app runs in a degraded UI-only mode in every subsequent tick: the commit step
makes no forward call and the manager never becomes present on any continuing
tick (so the degradation is permanent); the error notice is shown exactly once
over any nonempty lifetime (a one-time modal, displayed on the first tick and
never re-created), and confirming it terminates the process in that very tick;
however the effect-changing controls are not disabled by the manager's absence
— their enabledness depends only on the selected effect and the custom-effect
state. -/
theorem manager_absent_degraded (s : AppState) (chan : List GuiMessage) (inp : TickInput)
    (hm : s.manager = false) (hc : inp.managerConfirmed = true) :
    color_controls_enabled s = (s.profile.effect.takes_color_array && s.custom_effect.is_none) ∧
    effect_options_enabled s = s.custom_effect.is_none ∧
    (commitStep s).2 = [] ∧
    isExited (tick s chan inp) = true ∧
    (∀ inp2 chan2 s1 c1 calls, tick s chan2 inp2 = TickResult.cont s1 c1 calls →
      s1.manager = false ∧ calls = []) ∧
    (∀ inp2 inps2 chan2, runNotices s chan2 false (inp2 :: inps2) = 1) := by
  refine ⟨rfl, rfl, commitStep_calls_no_manager s hm,
    tick_manager_confirmed_exits s chan inp hm hc, ?_, ?_⟩
  · intro inp2 chan2 s1 c1 calls h
    have hi := tick_cont_manager s chan2 inp2 s1 c1 calls h
    exact ⟨by rw [hi.1, hm], hi.2 hm⟩
  · intro inp2 inps2 chan2
    unfold runNotices
    have hshow : noticeShows s false = 1 := by simp [noticeShows, hm]
    have hflag : (false || !s.manager) = true := by rw [hm]; rfl
    cases ht : tick s chan2 inp2 with
    | cont s1 c1 calls =>
      rw [hshow, hflag]
      show 1 + runNotices s1 c1 true inps2 = 1
      rw [runNotices_already_shown inps2 s1 c1]
    | exited a b c w =>
      rw [hshow]
      rfl

/-- Witness for C9 (amended): at `stNoMgr` the commit step makes no call, a
tick whose input confirms the error notice terminates the process, and over a
one-tick lifetime the notice is shown exactly once. -/
theorem manager_absent_degraded_witness :
    (commitStep stNoMgr).2 = [] ∧ isExited (tick stNoMgr [] inpMgrConfirm) = true ∧
    runNotices stNoMgr [] false [inpMgrConfirm] = 1 := by
  have h := manager_absent_degraded stNoMgr [] inpMgrConfirm (by decide) (by decide)
  exact ⟨h.2.2.1, h.2.2.2.1, h.2.2.2.2.2 inpMgrConfirm [] []⟩
